import Mathlib

/-!
Shallow embedding of the SUBFRACTURE real-time brand-intelligence core:
the WebSocket server class `SubfractureWebSocketServer` (session store,
update handlers, subscription registry, broadcast fan-out) and the
serverless API route handler (workshop / cognitive-state / dialogue routes).

Conventions of the embedding:
* JS numbers that hold fractional state values are modelled as `ℚ`
  (the code only adds, takes `min` and compares, so exact rationals are a
  faithful model of the observable arithmetic).
* Timestamps (`new Date()`) are modelled as a `Nat` parameter `now`
  threaded into each operation.
* `uuidv4()` is modelled by a fresh-id counter `nextId : Nat` in the
  server state; each call consumes one id.  Freshness/uniqueness of the
  ids is what the code relies on, and the counter realises it.
* JS `Map` is modelled as an association list with first-match lookup
  and update-in-place-or-append `set` (insertion order preserved,
  matching `Map` iteration order).
* A possibly-absent payload field is an `Option`; JS truthiness tests
  (`x || d`) are modelled exactly, including `0` and `""` being falsy.
* A WebSocket connection is summarised by the two bits the server code
  observes: `readyOpen` (`ws.readyState === WebSocket.OPEN`) and
  `sendFails` (`ws.send` throws, which `sendToClient` catches).
-/

attribute [local semireducible] Rat.mul Rat.inv Rat.add Rat.sub Rat.ofScientific

namespace Subfracture

/-- JS `String.prototype.toLowerCase` (ASCII case mapping suffices for the
data flowing through the server). -/
def lowerStr (s : String) : String := ⟨s.data.map Char.toLower⟩

/-- Test `isPre sub l` : `sub` is a prefix of `l` (character lists). -/
def isPre : List Char → List Char → Bool
  | [], _ => true
  | _ :: _, [] => false
  | a :: as, b :: bs => a == b && isPre as bs

/-- Test `hasSub sub l` : `sub` occurs as a contiguous substring of `l`. -/
def hasSub (sub : List Char) : List Char → Bool
  | [] => isPre sub []
  | c :: rest => isPre sub (c :: rest) || hasSub sub rest

/-- JS `s.includes(sub)` : substring containment. -/
def jsIncludes (s sub : String) : Bool := hasSub sub.data s.data

/-- One `dimension` record of a brand session, as built by
`generateInitialDimensions` and mutated by `handleWorkshopData`. -/
structure Dimension where
  name : String
  depth : ℚ
  coherence : ℚ
  color : Nat
  viscosity : ℚ
  refraction : ℚ
  signalStrength : ℚ
  lastUpdated : Nat
deriving DecidableEq

/-- A workshop signal `{ category, confidence }` as consumed by
`handleWorkshopData`. -/
structure Signal where
  category : String
  confidence : ℚ
deriving DecidableEq

/-- The matching predicate of `handleWorkshopData`'s
`brandSession.dimensions.find(d => d.name === signal.category ||
d.name.includes(signal.category?.toLowerCase()))` for one dimension. -/
def sigMatches (cat : String) (d : Dimension) : Bool :=
  d.name == cat || jsIncludes d.name (lowerStr cat)

/-- The `Array.prototype.find` call followed by an in-place mutation of the found
element: update the first element satisfying `p`, leave the rest alone. -/
def updateFirst (p : α → Bool) (f : α → α) : List α → List α
  | [] => []
  | x :: xs => if p x then f x :: xs else x :: updateFirst p f xs

/-- The mutation `handleWorkshopData` applies to the found dimension:
`signalStrength = confidence; coherence = min(coherence + 0.05, 1.0);
lastUpdated = now`. -/
def signalUpdate (now : Nat) (confidence : ℚ) (d : Dimension) : Dimension :=
  { d with signalStrength := confidence
           coherence := min (d.coherence + 0.05) 1
           lastUpdated := now }

/-- Processing of a single signal by `handleWorkshopData` (find the first
matching dimension, update it; unmatched signals are dropped). -/
def applySignal (now : Nat) (s : Signal) (dims : List Dimension) : List Dimension :=
  updateFirst (sigMatches s.category) (signalUpdate now s.confidence) dims

/-- The whole `signals.forEach(...)` loop of `handleWorkshopData`,
guarded by `if (signals && signals.length > 0)`. -/
def processSignals (now : Nat) (signals : List Signal) (dims : List Dimension) :
    List Dimension :=
  if signals.isEmpty then dims
  else signals.foldl (fun ds s => applySignal now s ds) dims

/-- A contradiction entry after ingestion: `{...c, id: uuidv4(),
detected: new Date()}`.  The caller-supplied fields are kept opaque as
`payload`. -/
structure ConRec where
  payload : String
  id : Nat
  detected : Nat
deriving DecidableEq

/-- A gap entry after ingestion: `{...g, id: uuidv4(), identified: new Date()}`. -/
structure GapRec where
  payload : String
  id : Nat
  identified : Nat
deriving DecidableEq

/-- The stamping `contradictions.map(c => ({...c, id: uuidv4(), detected: new Date()}))`,
with the uuid counter starting at `n` and consumed left to right. -/
def stampCons (now : Nat) : Nat → List String → List ConRec
  | _, [] => []
  | n, c :: cs => ⟨c, n, now⟩ :: stampCons now (n + 1) cs

/-- The stamping `gaps.map(g => ({...g, id: uuidv4(), identified: new Date()}))`. -/
def stampGaps (now : Nat) : Nat → List String → List GapRec
  | _, [] => []
  | n, g :: gs => ⟨g, n, now⟩ :: stampGaps now (n + 1) gs

/-- An opaque `context` mapping (a plain JS object in the source). -/
def Ctx := List (String × String)
deriving DecidableEq

/-- The `cognitiveState` substructure of a session.  At creation the code
builds only the three numeric fields, so `lastUpdate` and `context` are
absent (`none`) until `handleCognitiveState` writes them. -/
structure CognitiveState where
  analytical : ℚ
  intuitive : ℚ
  efficiency : ℚ
  lastUpdate : Option Nat := none
  context : Option Ctx := none
deriving DecidableEq

/-- The `metrics` substructure set by `createBrandSession`. -/
structure Metrics where
  coherence : ℚ
  evolutionRate : String
  signalStrength : ℚ
deriving DecidableEq

/-- One entry of `generateInitialConnections` (`from`/`to` renamed, `from`
being a Lean keyword). -/
structure Relation where
  fromN : String
  toN : String
  strength : ℚ
  kind : String
  active : Bool
deriving DecidableEq

/-- A brand session of the WebSocket server (`createBrandSession` shape). -/
structure Session where
  id : String
  name : String
  createdAt : Nat
  dimensions : List Dimension
  connections : List Relation
  contradictions : List ConRec
  gaps : List GapRec
  cognitiveState : CognitiveState
  metrics : Metrics
deriving DecidableEq

/-- Function `generateInitialDimensions()` of the WebSocket server, verbatim. -/
def generateInitialDimensions (now : Nat) : List Dimension :=
  [ ⟨"market_position", 0.85, 0.92, 0x2196F3, 0.8, 1.52, 0.85, now⟩,
    ⟨"value_proposition", 0.78, 0.88, 0x4CAF50, 0.75, 1.48, 0.78, now⟩,
    ⟨"brand_narrative", 0.82, 0.75, 0xFF9800, 0.9, 1.54, 0.82, now⟩,
    ⟨"emotional_landscape", 0.90, 0.85, 0xE91E63, 0.95, 1.55, 0.90, now⟩,
    ⟨"visual_identity", 0.75, 0.95, 0x9C27B0, 0.7, 1.49, 0.75, now⟩,
    ⟨"digital_presence", 0.88, 0.78, 0x607D8B, 0.8, 1.51, 0.88, now⟩,
    ⟨"innovation_capacity", 0.92, 0.88, 0xFF5722, 0.85, 1.53, 0.92, now⟩ ]

/-- Function `generateInitialConnections()` of the WebSocket server, verbatim. -/
def generateInitialConnections : List Relation :=
  [ ⟨"market_position", "value_proposition", 0.9, "strategic", true⟩,
    ⟨"brand_narrative", "emotional_landscape", 0.85, "experiential", true⟩,
    ⟨"visual_identity", "digital_presence", 0.8, "implementation", true⟩ ]

/-- Function `createBrandSession(brandId)`: the session object it builds (the
accompanying `brandSessions.set` is part of the state operations below). -/
def createBrandSession (now : Nat) (brandId : String) : Session :=
  { id := brandId
    name := "Brand " ++ brandId.take 8
    createdAt := now
    dimensions := generateInitialDimensions now
    connections := generateInitialConnections
    contradictions := []
    gaps := []
    cognitiveState := { analytical := 0.7, intuitive := 0.7, efficiency := 0.75 }
    metrics := { coherence := 0.84, evolutionRate := "moderate", signalStrength := 0.78 } }

/-- One client record of the `this.clients` map.  `readyOpen` models
`ws.readyState === WebSocket.OPEN`; `sendFails` models `ws.send` throwing
(the error is caught and logged by `sendToClient`). -/
structure Client where
  brandId : Option String := none
  readyOpen : Bool
  sendFails : Bool
  connectedAt : Nat
deriving DecidableEq

/-- JS `Map.get` on an association list (first match). -/
def mGet (m : List (String × Session)) (k : String) : Option Session :=
  (m.find? (fun p => p.1 == k)).map (fun p => p.2)

/-- JS `Map.set` on an association list: overwrite in place, else append. -/
def mSet (m : List (String × Session)) (k : String) (v : Session) :
    List (String × Session) :=
  match m with
  | [] => [(k, v)]
  | (k0, v0) :: rest => if k0 = k then (k, v) :: rest else (k0, v0) :: mSet rest k v

/-- Lookup `this.clients.get(clientId)`. -/
def cGet (m : List (Nat × Client)) (k : Nat) : Option Client :=
  (m.find? (fun p => p.1 == k)).map (fun p => p.2)

/-- In-place mutation of a looked-up client object (`client.brandId = ...`):
the first entry with the key is updated, the rest stay. -/
def cUpd (m : List (Nat × Client)) (k : Nat) (f : Client → Client) :
    List (Nat × Client) :=
  match m with
  | [] => []
  | (k0, c0) :: rest => if k0 = k then (k0, f c0) :: rest else (k0, c0) :: cUpd rest k f

/-- The mutable state of a `SubfractureWebSocketServer`: the client
registry, the brand-session store and the fresh-uuid counter. -/
structure ServerState where
  clients : List (Nat × Client)
  brandSessions : List (String × Session)
  nextId : Nat
deriving DecidableEq

/-- JS `x || d` for a possibly-absent numeric payload field: absent and
`0` are falsy, anything else is kept. -/
def jsOrQ (x : Option ℚ) (d : ℚ) : ℚ :=
  match x with
  | none => d
  | some v => if v = 0 then d else v

/-- JS `x || d` for a possibly-absent string payload field: absent and the
empty string are falsy. -/
def jsOrStr (x : Option String) (d : String) : String :=
  match x with
  | none => d
  | some s => if s = "" then d else s

/-- JS `context || {}`: an absent context becomes the empty object. -/
def jsOrCtx (x : Option Ctx) : Ctx :=
  match x with
  | none => []
  | some c => c

/-- Operation `getBrandState` / the lazy-creation pattern
`this.brandSessions.get(brandId) || this.createBrandSession(brandId)`:
returns the session and the (possibly extended) store state. -/
def getBrandStateOp (st : ServerState) (now : Nat) (brandId : String) :
    Session × ServerState :=
  match mGet st.brandSessions brandId with
  | some s => (s, st)
  | none =>
      let s := createBrandSession now brandId
      (s, { st with brandSessions := mSet st.brandSessions brandId s })

/-- Handler `handleWorkshopData(req, res)` on `{ brandId, signals, contradictions,
gaps }`: lazy session creation, the three guarded update branches
(signals / contradictions / gaps), and storing the mutated session.  The
broadcast it then performs does not change server state. -/
def handleWorkshopData (st : ServerState) (now : Nat) (brandId : String)
    (signals : List Signal) (contradictions gaps : List String) : ServerState :=
  let got := getBrandStateOp st now brandId
  let s0 := got.1
  let st0 := got.2
  let dims := processSignals now signals s0.dimensions
  let cons := if contradictions.isEmpty then s0.contradictions
              else stampCons now st0.nextId contradictions
  let n1 := if contradictions.isEmpty then st0.nextId
            else st0.nextId + contradictions.length
  let gps := if gaps.isEmpty then s0.gaps else stampGaps now n1 gaps
  let n2 := if gaps.isEmpty then n1 else n1 + gaps.length
  let s1 := { s0 with dimensions := dims, contradictions := cons, gaps := gps }
  { st0 with brandSessions := mSet st0.brandSessions brandId s1, nextId := n2 }

/-- Handler `handleCognitiveState(req, res)` on `{ brandId, analytical, intuitive,
efficiency, context }`: lazy session creation, then the wholesale rebuild
`brandSession.cognitiveState = { analytical: analytical || 0.7, intuitive:
intuitive || 0.7, efficiency: efficiency || 0.75, lastUpdate: new Date(),
context: context || {} }`. -/
def handleCognitiveState (st : ServerState) (now : Nat) (brandId : String)
    (analytical intuitive efficiency : Option ℚ) (context : Option Ctx) :
    ServerState :=
  let got := getBrandStateOp st now brandId
  let s0 := got.1
  let st0 := got.2
  let cs : CognitiveState :=
    { analytical := jsOrQ analytical 0.7
      intuitive := jsOrQ intuitive 0.7
      efficiency := jsOrQ efficiency 0.75
      lastUpdate := some now
      context := some (jsOrCtx context) }
  { st0 with
      brandSessions := mSet st0.brandSessions brandId { s0 with cognitiveState := cs } }

/-- The dialogue object broadcast by `handleRefinementDialogue` (field
`messageType: messageType || 'question'`). -/
structure DialogueMsg where
  speaker : String
  message : String
  messageType : String
  timestamp : Nat
deriving DecidableEq

/-- Handler `handleRefinementDialogue(req, res)`: builds the broadcast dialogue
message and broadcasts it; it stores nothing in any session, so the server
state is returned unchanged. -/
def handleRefinementDialogue (st : ServerState) (now : Nat) (_brandId : String)
    (speaker message : String) (messageType : Option String) :
    ServerState × DialogueMsg :=
  (st, ⟨speaker, message, jsOrStr messageType "question", now⟩)

/-- Method `sendToClient(clientId, message)`: the send succeeds iff the client is
registered, its socket is open and `ws.send` does not throw; a throwing
send is caught (logged) and changes nothing. -/
def sendToClient (cs : List (Nat × Client)) (i : Nat) : Bool :=
  match cGet cs i with
  | some c => c.readyOpen && !c.sendFails
  | none => false

/-- Method `broadcastToBrand(brandId, message)`: iterate the full client registry,
attempt a send to every client whose `brandId` matches and whose socket is
open.  Returns the unchanged state together with the list of client ids
that actually received the message (in registry iteration order). -/
def broadcastToBrand (st : ServerState) (brandId : String) :
    ServerState × List Nat :=
  (st,
    ((st.clients.filter (fun p => p.2.brandId == some brandId && p.2.readyOpen)).filter
        (fun p => sendToClient st.clients p.1)).map (fun p => p.1))

/-- Handler `handleJoinBrand(clientId, brandId)`: no-op for an unknown client;
otherwise set the client's `brandId` and lazily create the brand session
(the `brand_state` snapshot it then sends does not change state). -/
def handleJoinBrand (st : ServerState) (now : Nat) (clientId : Nat)
    (brandId : String) : ServerState :=
  match cGet st.clients clientId with
  | none => st
  | some _ =>
      let setB : Client → Client := fun c => { c with brandId := some brandId }
      let st1 : ServerState := { st with clients := cUpd st.clients clientId setB }
      (getBrandStateOp st1 now brandId).2

/-! ### The serverless API handler (stateless routes)

The serverless endpoint recreates a demo session on every request
(`createBrandSession(brandId)` with a smaller dimension shape) and applies
the requested mutation to that fresh session. -/

/-- A dimension of the serverless demo session
(`{ name, signalStrength, coherence, connections: [] }`). -/
structure Dim2 where
  name : String
  signalStrength : ℚ
  coherence : ℚ
deriving DecidableEq

/-- The serverless session's `cognitiveState` (no `lastUpdate` field;
`context` appears only after the cognitive-state route writes it). -/
structure Cog2 where
  analytical : ℚ
  intuitive : ℚ
  efficiency : ℚ
  context : Option Ctx := none
deriving DecidableEq

/-- One entry pushed onto the serverless session's `dialogue` list:
`{ id: uuidv4(), speaker, message, messageType, timestamp: new Date() }`.
`messageType` is stored exactly as submitted (possibly absent). -/
structure DialogueEntry where
  id : Nat
  speaker : String
  message : String
  messageType : Option String
  timestamp : Nat
deriving DecidableEq

/-- The serverless demo session shape. -/
structure Session2 where
  brandId : String
  created : Nat
  lastUpdate : Nat
  dimensions : List Dim2
  contradictions : List String
  gaps : List String
  cognitiveState : Cog2
  dialogue : List DialogueEntry
deriving DecidableEq

/-- The serverless `createBrandSession(brandId)`, verbatim. -/
def createBrandSession2 (now : Nat) (brandId : String) : Session2 :=
  { brandId := brandId
    created := now
    lastUpdate := now
    dimensions :=
      [ ⟨"market_position", 0.5, 0.7⟩,
        ⟨"value_proposition", 0.6, 0.8⟩,
        ⟨"emotional_landscape", 0.4, 0.6⟩,
        ⟨"brand_narrative", 0.7, 0.9⟩,
        ⟨"target_audience", 0.3, 0.5⟩,
        ⟨"competitive_differentiation", 0.5, 0.6⟩ ]
    contradictions := []
    gaps := []
    cognitiveState := { analytical := 0.5, intuitive := 0.5, efficiency := 0.7 }
    dialogue := [] }

/-- The `POST /api/ai/cognitive-state` route: builds a fresh session and
rebuilds its `cognitiveState` with per-field fallback to the fresh
session's current values (`analytical: analytical ||
session.cognitiveState.analytical`, ..., `context: context || {}`).
Returns the stored `cognitiveState`. -/
def routeCognitiveState (now : Nat) (brandId : String)
    (analytical intuitive efficiency : Option ℚ) (context : Option Ctx) : Cog2 :=
  let s := createBrandSession2 now brandId
  { analytical := jsOrQ analytical s.cognitiveState.analytical
    intuitive := jsOrQ intuitive s.cognitiveState.intuitive
    efficiency := jsOrQ efficiency s.cognitiveState.efficiency
    context := some (jsOrCtx context) }

/-- The `POST /api/refinement/dialogue` route: builds a fresh session,
pushes one dialogue entry `{ id: uuidv4(), speaker, message, messageType,
timestamp }` onto its `dialogue` and bumps `lastUpdate`.  `nextId` models
the `uuidv4()` call. -/
def routeRefinementDialogue (nextId now : Nat) (brandId speaker message : String)
    (messageType : Option String) : Session2 :=
  let s := createBrandSession2 now brandId
  { s with dialogue := s.dialogue ++ [⟨nextId, speaker, message, messageType, now⟩]
           lastUpdate := now }

/-! ### Concrete states used by counterexamples and witnesses -/

/-- A server state with no clients and no sessions. -/
def emptyState : ServerState := { clients := [], brandSessions := [], nextId := 0 }

/-- A dimension named `"ab"` (its name substring-contains `"b"`). -/
def cexDimAB : Dimension := ⟨"ab", 0.5, 0.5, 0, 0.5, 1.5, 0.5, 0⟩

/-- A dimension named exactly `"b"`. -/
def cexDimB : Dimension := ⟨"b", 0.5, 0.5, 0, 0.5, 1.5, 0.5, 0⟩

/-- A session whose attribute list puts the substring-containing name
before the exactly-matching one. -/
def cexSess : Session := { createBrandSession 0 "b" with dimensions := [cexDimAB, cexDimB] }

/-- A server state holding `cexSess` under key `"b"`. -/
def cexSt : ServerState := { clients := [], brandSessions := [("b", cexSess)], nextId := 0 }

/-- A subscribed client whose socket is open but whose `ws.send` throws. -/
def cexClientFail : Client :=
  { brandId := some "A", readyOpen := true, sendFails := true, connectedAt := 0 }

/-- A subscribed client whose delivery succeeds. -/
def cexClientOk : Client :=
  { brandId := some "A", readyOpen := true, sendFails := false, connectedAt := 0 }

/-- A registry with the failing client first and a healthy one second. -/
def cexBroadcastSt : ServerState :=
  { clients := [(1, cexClientFail), (2, cexClientOk)], brandSessions := [], nextId := 0 }

/-- A healthy, not-yet-subscribed client used by the subscribe/publish witness. -/
def cexFreshClient : Client :=
  { brandId := none, readyOpen := true, sendFails := false, connectedAt := 0 }

/-- A one-client state used by the subscribe/publish witness. -/
def cexJoinSt : ServerState :=
  { clients := [(7, cexFreshClient)], brandSessions := [], nextId := 0 }

/-! ### Helper lemmas -/

theorem mGet_cons_ne (k0 k : String) (v0 : Session) (m : List (String × Session))
    (h : k0 ≠ k) : mGet ((k0, v0) :: m) k = mGet m k := by
  simp only [mGet]
  rw [List.find?_cons_of_neg]
  simp [h]

theorem mGet_mSet_self (m : List (String × Session)) (k : String) (v : Session) :
    mGet (mSet m k v) k = some v := by
  induction m with
  | nil => simp [mGet, mSet]
  | cons p rest ih =>
      obtain ⟨k0, v0⟩ := p
      by_cases h : k0 = k
      · subst h; simp [mGet, mSet]
      · rw [show mSet ((k0, v0) :: rest) k v = (k0, v0) :: mSet rest k v from by
            simp [mSet, h]]
        rw [mGet_cons_ne _ _ _ _ h]
        exact ih

theorem stampCons_map_payload (now : Nat) :
    ∀ (n : Nat) (l : List String), (stampCons now n l).map ConRec.payload = l := by
  intro n l
  induction l generalizing n with
  | nil => rfl
  | cons c cs ih => simp [stampCons, ih]

theorem stampCons_detected (now : Nat) :
    ∀ (n : Nat) (l : List String) (e : ConRec), e ∈ stampCons now n l → e.detected = now := by
  intro n l
  induction l generalizing n with
  | nil => intro e he; simp [stampCons] at he
  | cons c cs ih =>
      intro e he
      have he2 : e ∈ (⟨c, n, now⟩ : ConRec) :: stampCons now (n + 1) cs := he
      rcases List.mem_cons.mp he2 with h | h
      · subst h; rfl
      · exact ih (n + 1) e h

theorem stampCons_id_ge (now : Nat) :
    ∀ (n : Nat) (l : List String) (e : ConRec), e ∈ stampCons now n l → n ≤ e.id := by
  intro n l
  induction l generalizing n with
  | nil => intro e he; simp [stampCons] at he
  | cons c cs ih =>
      intro e he
      have he2 : e ∈ (⟨c, n, now⟩ : ConRec) :: stampCons now (n + 1) cs := he
      rcases List.mem_cons.mp he2 with h | h
      · subst h; exact Nat.le_refl n
      · exact Nat.le_of_succ_le (ih (n + 1) e h)

theorem stampCons_id_lt (now : Nat) :
    ∀ (n : Nat) (l : List String) (e : ConRec), e ∈ stampCons now n l → e.id < n + l.length := by
  intro n l
  induction l generalizing n with
  | nil => intro e he; simp [stampCons] at he
  | cons c cs ih =>
      intro e he
      have he2 : e ∈ (⟨c, n, now⟩ : ConRec) :: stampCons now (n + 1) cs := he
      rcases List.mem_cons.mp he2 with h | h
      · subst h; simp
      · have := ih (n + 1) e h
        simp only [List.length_cons]
        omega

theorem stampCons_id_nodup (now : Nat) :
    ∀ (n : Nat) (l : List String), ((stampCons now n l).map ConRec.id).Nodup := by
  intro n l
  induction l generalizing n with
  | nil => simp [stampCons]
  | cons c cs ih =>
      simp only [stampCons, List.map_cons, List.nodup_cons]
      refine ⟨?_, ih (n + 1)⟩
      intro hmem
      rcases List.mem_map.mp hmem with ⟨e, he, hid⟩
      have := stampCons_id_ge now (n + 1) cs e he
      omega

theorem stampGaps_map_payload (now : Nat) :
    ∀ (n : Nat) (l : List String), (stampGaps now n l).map GapRec.payload = l := by
  intro n l
  induction l generalizing n with
  | nil => rfl
  | cons g gs ih => simp [stampGaps, ih]

theorem stampGaps_identified (now : Nat) :
    ∀ (n : Nat) (l : List String) (e : GapRec), e ∈ stampGaps now n l → e.identified = now := by
  intro n l
  induction l generalizing n with
  | nil => intro e he; simp [stampGaps] at he
  | cons g gs ih =>
      intro e he
      have he2 : e ∈ (⟨g, n, now⟩ : GapRec) :: stampGaps now (n + 1) gs := he
      rcases List.mem_cons.mp he2 with h | h
      · subst h; rfl
      · exact ih (n + 1) e h

theorem stampGaps_id_ge (now : Nat) :
    ∀ (n : Nat) (l : List String) (e : GapRec), e ∈ stampGaps now n l → n ≤ e.id := by
  intro n l
  induction l generalizing n with
  | nil => intro e he; simp [stampGaps] at he
  | cons g gs ih =>
      intro e he
      have he2 : e ∈ (⟨g, n, now⟩ : GapRec) :: stampGaps now (n + 1) gs := he
      rcases List.mem_cons.mp he2 with h | h
      · subst h; exact Nat.le_refl n
      · exact Nat.le_of_succ_le (ih (n + 1) e h)

theorem stampGaps_id_nodup (now : Nat) :
    ∀ (n : Nat) (l : List String), ((stampGaps now n l).map GapRec.id).Nodup := by
  intro n l
  induction l generalizing n with
  | nil => simp [stampGaps]
  | cons g gs ih =>
      simp only [stampGaps, List.map_cons, List.nodup_cons]
      refine ⟨?_, ih (n + 1)⟩
      intro hmem
      rcases List.mem_map.mp hmem with ⟨e, he, hid⟩
      have := stampGaps_id_ge now (n + 1) gs e he
      omega

/-- The ids stamped onto a contradiction batch and onto the gap batch that
follows it (counter continuing at `n + l.length`) are pairwise distinct. -/
theorem stamp_ids_append_nodup (now n : Nat) (l g : List String) :
    ((stampCons now n l).map ConRec.id ++ (stampGaps now (n + l.length) g).map GapRec.id).Nodup := by
  rw [List.nodup_append]
  refine ⟨stampCons_id_nodup now n l, stampGaps_id_nodup now (n + l.length) g, ?_⟩
  intro a ha hb
  rcases List.mem_map.mp ha with ⟨e, he, hid⟩
  rcases List.mem_map.mp hb with ⟨e2, he2, hid2⟩
  have h1 := stampCons_id_lt now n l e he
  have h2 := stampGaps_id_ge now (n + l.length) g e2 he2
  omega

theorem cGet_cons_ne (k0 k : Nat) (c0 : Client) (m : List (Nat × Client))
    (h : k0 ≠ k) : cGet ((k0, c0) :: m) k = cGet m k := by
  simp only [cGet]
  rw [List.find?_cons_of_neg]
  simp [h]

theorem cGet_mem (cs : List (Nat × Client)) (i : Nat) (c : Client)
    (h : cGet cs i = some c) : (i, c) ∈ cs := by
  induction cs with
  | nil => simp [cGet] at h
  | cons p rest ih =>
      obtain ⟨j, c0⟩ := p
      by_cases hj : j = i
      · subst hj
        have : c0 = c := by simpa [cGet, List.find?_cons_of_pos] using h
        subst this
        exact List.mem_cons_self _ _
      · rw [cGet_cons_ne _ _ _ _ hj] at h
        exact List.mem_cons_of_mem _ (ih h)

theorem cGet_of_mem_nodup (cs : List (Nat × Client)) (i : Nat) (c : Client)
    (hN : (cs.map Prod.fst).Nodup) (hm : (i, c) ∈ cs) : cGet cs i = some c := by
  induction cs with
  | nil => simp at hm
  | cons p rest ih =>
      obtain ⟨j, c0⟩ := p
      rcases List.mem_cons.mp hm with h | h
      · injection h with h1 h2
        subst h1; subst h2
        simp [cGet, List.find?_cons_of_pos]
      · have hj : j ≠ i := by
          intro hji
          subst hji
          have : j ∈ rest.map Prod.fst := List.mem_map.mpr ⟨(j, c), h, rfl⟩
          exact (List.nodup_cons.mp hN).1 this
        rw [cGet_cons_ne _ _ _ _ hj]
        exact ih (List.nodup_cons.mp hN).2 h

theorem cUpd_map_fst (cs : List (Nat × Client)) (i : Nat) (f : Client → Client) :
    (cUpd cs i f).map Prod.fst = cs.map Prod.fst := by
  induction cs with
  | nil => rfl
  | cons p rest ih =>
      obtain ⟨j, c0⟩ := p
      by_cases hj : j = i
      · simp [cUpd, hj]
      · simp [cUpd, hj, ih]

theorem cGet_cUpd_self (cs : List (Nat × Client)) (i : Nat) (c : Client)
    (f : Client → Client) (h : cGet cs i = some c) :
    cGet (cUpd cs i f) i = some (f c) := by
  induction cs with
  | nil => simp [cGet] at h
  | cons p rest ih =>
      obtain ⟨j, c0⟩ := p
      by_cases hj : j = i
      · subst hj
        have : c0 = c := by simpa [cGet, List.find?_cons_of_pos] using h
        subst this
        simp [cUpd, cGet, List.find?_cons_of_pos]
      · rw [cGet_cons_ne _ _ _ _ hj] at h
        rw [show cUpd ((j, c0) :: rest) i f = (j, c0) :: cUpd rest i f from by
            simp [cUpd, hj]]
        rw [cGet_cons_ne _ _ _ _ hj]
        exact ih h

/-- Broadcasting never mutates the server state: in particular no client is
removed from the registry, whatever deliveries fail. -/
theorem broadcastToBrand_state (st : ServerState) (b : String) :
    (broadcastToBrand st b).1 = st := rfl

/-- Membership in the delivery list of `broadcastToBrand` is decided by the
client's own subscription, socket state and send outcome alone. -/
theorem mem_broadcast_iff (st : ServerState) (b : String) (i : Nat) (c : Client)
    (hN : (st.clients.map Prod.fst).Nodup) (hc : (i, c) ∈ st.clients) :
    i ∈ (broadcastToBrand st b).2 ↔
      (c.brandId = some b ∧ c.readyOpen = true ∧ c.sendFails = false) := by
  have hget : cGet st.clients i = some c := cGet_of_mem_nodup _ _ _ hN hc
  constructor
  · intro hmem
    rcases List.mem_map.mp hmem with ⟨p, hp, hpi⟩
    rcases List.mem_filter.mp hp with ⟨hp1, hp2⟩
    rcases List.mem_filter.mp hp1 with ⟨hpmem, hq1⟩
    have hpc : p = (i, c) := by
      obtain ⟨pi, pc⟩ := p
      simp only at hpi
      subst hpi
      have := cGet_of_mem_nodup _ _ _ hN hpmem
      rw [hget] at this
      injection this with h
      rw [h]
    subst hpc
    simp only [Bool.and_eq_true, beq_iff_eq] at hq1
    refine ⟨hq1.1, hq1.2, ?_⟩
    simp only [sendToClient, hget, Bool.and_eq_true, Bool.not_eq_true'] at hp2
    exact hp2.2
  · rintro ⟨hb, ho, hf⟩
    refine List.mem_map.mpr ⟨(i, c), ?_, rfl⟩
    refine List.mem_filter.mpr ⟨List.mem_filter.mpr ⟨hc, ?_⟩, ?_⟩
    · simp [hb, ho]
    · simp [sendToClient, hget, ho, hf]

theorem mem_updateFirst {α : Type} (p : α → Bool) (f : α → α) (l : List α) (x : α)
    (hx : x ∈ updateFirst p f l) : x ∈ l ∨ ∃ y ∈ l, x = f y := by
  induction l with
  | nil => simp [updateFirst] at hx
  | cons a as ih =>
      by_cases hpa : p a = true
      · rw [show updateFirst p f (a :: as) = f a :: as from by simp [updateFirst, hpa]] at hx
        rcases List.mem_cons.mp hx with h | h
        · exact Or.inr ⟨a, List.mem_cons_self _ _, h⟩
        · exact Or.inl (List.mem_cons_of_mem _ h)
      · rw [show updateFirst p f (a :: as) = a :: updateFirst p f as from by
            simp [updateFirst, hpa]] at hx
        rcases List.mem_cons.mp hx with h | h
        · exact Or.inl (h ▸ List.mem_cons_self _ _)
        · rcases ih h with h2 | ⟨y, hy, hxy⟩
          · exact Or.inl (List.mem_cons_of_mem _ h2)
          · exact Or.inr ⟨y, List.mem_cons_of_mem _ hy, hxy⟩

theorem signalUpdate_coherence_le (now : Nat) (conf : ℚ) (d : Dimension) :
    (signalUpdate now conf d).coherence ≤ 1 :=
  min_le_right _ _

theorem applySignal_coherence_le (now : Nat) (s : Signal) (dims : List Dimension)
    (h : ∀ d ∈ dims, d.coherence ≤ 1) :
    ∀ d ∈ applySignal now s dims, d.coherence ≤ 1 := by
  intro d hd
  rcases mem_updateFirst _ _ _ _ hd with h2 | ⟨y, _, rfl⟩
  · exact h d h2
  · exact signalUpdate_coherence_le _ _ _

theorem foldlSignals_coherence_le (now : Nat) :
    ∀ (sigs : List Signal) (dims : List Dimension), (∀ d ∈ dims, d.coherence ≤ 1) →
      ∀ d ∈ sigs.foldl (fun ds s => applySignal now s ds) dims, d.coherence ≤ 1 := by
  intro sigs
  induction sigs with
  | nil => intro dims h d hd; exact h d hd
  | cons s rest ih =>
      intro dims h d hd
      exact ih (applySignal now s dims) (applySignal_coherence_le now s dims h) d hd

theorem processSignals_coherence_le (now : Nat) (sigs : List Signal)
    (dims : List Dimension) (h : ∀ d ∈ dims, d.coherence ≤ 1) :
    ∀ d ∈ processSignals now sigs dims, d.coherence ≤ 1 := by
  unfold processSignals
  by_cases hs : sigs.isEmpty
  · simpa [hs] using h
  · simpa [hs] using foldlSignals_coherence_le now sigs dims h

theorem getBrandStateOp_found (st : ServerState) (now : Nat) (b : String)
    (s : Session) (h : mGet st.brandSessions b = some s) :
    getBrandStateOp st now b = (s, st) := by
  simp [getBrandStateOp, h]

theorem getBrandStateOp_create (st : ServerState) (now : Nat) (b : String)
    (h : mGet st.brandSessions b = none) :
    getBrandStateOp st now b =
      (createBrandSession now b,
        { st with brandSessions := mSet st.brandSessions b (createBrandSession now b) }) := by
  simp [getBrandStateOp, h]

theorem getBrandStateOp_clients (st : ServerState) (now : Nat) (b : String) :
    (getBrandStateOp st now b).2.clients = st.clients := by
  rcases hm : mGet st.brandSessions b with _ | s
  · simp [getBrandStateOp, hm]
  · simp [getBrandStateOp, hm]

theorem handleJoinBrand_clients (st : ServerState) (now : Nat) (c1 : Nat)
    (b : String) (cl : Client) (hc : cGet st.clients c1 = some cl) :
    (handleJoinBrand st now c1 b).clients =
      cUpd st.clients c1 (fun c => { c with brandId := some b }) := by
  unfold handleJoinBrand
  rw [hc]
  exact getBrandStateOp_clients _ _ _

theorem mGet_mSet_ne (m : List (String × Session)) (k k' : String) (v : Session)
    (h : k ≠ k') : mGet (mSet m k v) k' = mGet m k' := by
  induction m with
  | nil =>
      simp only [mSet, mGet]
      rw [List.find?_cons_of_neg _ (by simp [h])]
  | cons p rest ih =>
      obtain ⟨k0, v0⟩ := p
      by_cases hk : k0 = k
      · subst hk
        rw [show mSet ((k0, v0) :: rest) k0 v = (k0, v) :: rest from by simp [mSet]]
        rw [mGet_cons_ne _ _ _ _ h, mGet_cons_ne _ _ _ _ h]
      · rw [show mSet ((k0, v0) :: rest) k v = (k0, v0) :: mSet rest k v from by
            simp [mSet, hk]]
        by_cases hk' : k0 = k'
        · subst hk'
          simp [mGet, List.find?_cons_of_pos]
        · rw [mGet_cons_ne _ _ _ _ hk', mGet_cons_ne _ _ _ _ hk']
          exact ih

theorem jsOrQ_zero (d : ℚ) : jsOrQ (some 0) d = d := by simp [jsOrQ]

theorem jsOrQ_none (d : ℚ) : jsOrQ none d = d := rfl

theorem updateFirst_append_of_none {α : Type} (p : α → Bool) (f : α → α)
    (pre l : List α) (h : ∀ e ∈ pre, p e = false) :
    updateFirst p f (pre ++ l) = pre ++ updateFirst p f l := by
  induction pre with
  | nil => rfl
  | cons a as ih =>
      have ha : p a = false := h a (List.mem_cons_self _ _)
      simp only [List.cons_append, updateFirst, ha, Bool.false_eq_true, if_false]
      congr 1
      exact ih (fun e he => h e (List.mem_cons_of_mem _ he))

theorem createBrandSession_coherence_le (now : Nat) (b : String) :
    ∀ d ∈ (createBrandSession now b).dimensions, d.coherence ≤ 1 := by
  intro d hd
  simp only [createBrandSession, generateInitialDimensions, List.mem_cons,
    List.not_mem_nil, or_false] at hd
  rcases hd with rfl | rfl | rfl | rfl | rfl | rfl | rfl <;> norm_num

/-- Shape of `handleWorkshopData` when the session already exists. -/
theorem handleWorkshopData_found (st : ServerState) (now : Nat) (b : String)
    (sig : List Signal) (con gap : List String) (s0 : Session)
    (h : mGet st.brandSessions b = some s0) :
    handleWorkshopData st now b sig con gap =
      { st with
          brandSessions := mSet st.brandSessions b
            { s0 with
                dimensions := processSignals now sig s0.dimensions
                contradictions :=
                  if con.isEmpty then s0.contradictions else stampCons now st.nextId con
                gaps :=
                  if gap.isEmpty then s0.gaps
                  else stampGaps now
                    (if con.isEmpty then st.nextId else st.nextId + con.length) gap }
          nextId :=
            (if gap.isEmpty then
              (if con.isEmpty then st.nextId else st.nextId + con.length)
            else
              (if con.isEmpty then st.nextId else st.nextId + con.length) + gap.length) } := by
  simp only [handleWorkshopData, getBrandStateOp_found st now b s0 h]

/-- Shape of `handleWorkshopData` when the session is created lazily. -/
theorem handleWorkshopData_create (st : ServerState) (now : Nat) (b : String)
    (sig : List Signal) (con gap : List String)
    (h : mGet st.brandSessions b = none) :
    handleWorkshopData st now b sig con gap =
      { st with
          brandSessions := mSet (mSet st.brandSessions b (createBrandSession now b)) b
            { createBrandSession now b with
                dimensions := processSignals now sig (createBrandSession now b).dimensions
                contradictions :=
                  if con.isEmpty then [] else stampCons now st.nextId con
                gaps :=
                  if gap.isEmpty then []
                  else stampGaps now
                    (if con.isEmpty then st.nextId else st.nextId + con.length) gap }
          nextId :=
            (if gap.isEmpty then
              (if con.isEmpty then st.nextId else st.nextId + con.length)
            else
              (if con.isEmpty then st.nextId else st.nextId + con.length) + gap.length) } := by
  simp only [handleWorkshopData, getBrandStateOp_create st now b h]
  rfl

/-- After any `handleWorkshopData` call the addressed session is stored. -/
theorem handleWorkshopData_mGet (st : ServerState) (now : Nat) (b : String)
    (sig : List Signal) (con gap : List String) :
    ∃ s', mGet (handleWorkshopData st now b sig con gap).brandSessions b = some s' := by
  rcases hm : mGet st.brandSessions b with _ | s0
  · rw [handleWorkshopData_create st now b sig con gap hm]
    exact ⟨_, mGet_mSet_self _ _ _⟩
  · rw [handleWorkshopData_found st now b sig con gap s0 hm]
    exact ⟨_, mGet_mSet_self _ _ _⟩

/-- Invariant: every stored session's attributes have `coherence ≤ 1`. -/
def StoreCoh (st : ServerState) : Prop :=
  ∀ b s, mGet st.brandSessions b = some s → ∀ d ∈ s.dimensions, d.coherence ≤ 1

/-- One workshop-processing call (the payload of one
`POST /api/workshop/process` request plus its arrival time). -/
structure WorkshopCall where
  now : Nat
  brandId : String
  signals : List Signal
  contradictions : List String
  gaps : List String

/-- A sequence of workshop-processing calls applied in order. -/
def runCalls (st : ServerState) (calls : List WorkshopCall) : ServerState :=
  calls.foldl
    (fun st c => handleWorkshopData st c.now c.brandId c.signals c.contradictions c.gaps) st

theorem handleWorkshopData_storeCoh (st : ServerState) (now : Nat) (b : String)
    (sig : List Signal) (con gap : List String) (h : StoreCoh st) :
    StoreCoh (handleWorkshopData st now b sig con gap) := by
  intro b' s' hs' d hd
  rcases hm : mGet st.brandSessions b with _ | s0
  · rw [handleWorkshopData_create st now b sig con gap hm] at hs'
    by_cases hb : b = b'
    · subst hb
      rw [mGet_mSet_self] at hs'
      injection hs' with hs'
      subst hs'
      exact processSignals_coherence_le now sig _ (createBrandSession_coherence_le now b) d hd
    · rw [mGet_mSet_ne _ _ _ _ hb, mGet_mSet_ne _ _ _ _ hb] at hs'
      exact h b' s' hs' d hd
  · rw [handleWorkshopData_found st now b sig con gap s0 hm] at hs'
    by_cases hb : b = b'
    · subst hb
      rw [mGet_mSet_self] at hs'
      injection hs' with hs'
      subst hs'
      exact processSignals_coherence_le now sig _ (h b s0 hm) d hd
    · rw [mGet_mSet_ne _ _ _ _ hb] at hs'
      exact h b' s' hs' d hd

/-! ### Claim theorems -/

/-- C1, counterexample: in `handleWorkshopData` the signal category `"b"`
exactly equals the name of the session's second attribute, yet the first
attribute `"ab"` — whose name merely substring-contains `"b"` — is the one
updated (`signalStrength` becomes `0.9`), while the exactly-named
attribute keeps `signalStrength 0.5`.  There is no exact-match precedence:
`find` takes the first attribute satisfying `name === category ||
name.includes(category.toLowerCase())` in iteration order. -/
theorem claim_C1_counterexample :
    (mGet (handleWorkshopData cexSt 5 "b" [⟨"b", 0.9⟩] [] []).brandSessions "b").map
        (fun s => s.dimensions.map (fun d => (d.name, d.signalStrength))) =
      some [("ab", 0.9), ("b", 0.5)] := by
  decide

/-- C1, amended: a signal whose category exactly equals an attribute's name
updates that attribute only when no earlier attribute in iteration order
matches (exactly or by containing the lowercased category); the first
matching attribute always wins. -/
theorem claim_C1_theorem (now : Nat) (sig : Signal) (pre post : List Dimension)
    (d : Dimension) (hpre : ∀ e ∈ pre, sigMatches sig.category e = false)
    (hd : d.name = sig.category) :
    applySignal now sig (pre ++ d :: post) =
      pre ++ signalUpdate now sig.confidence d :: post := by
  unfold applySignal
  rw [updateFirst_append_of_none _ _ _ _ hpre]
  have hmatch : sigMatches sig.category d = true := by
    simp [sigMatches, hd]
  simp [updateFirst, hmatch]

/-- C1, witness: with no earlier matching attribute, the exactly-named
attribute `"b"` is the one updated. -/
theorem claim_C1_witness :
    (∀ e ∈ [(⟨"zz", 0.5, 0.5, 0, 0.5, 1.5, 0.5, 0⟩ : Dimension)],
        sigMatches (Signal.mk "b" 0.9).category e = false) ∧
    applySignal 3 ⟨"b", 0.9⟩
        ([(⟨"zz", 0.5, 0.5, 0, 0.5, 1.5, 0.5, 0⟩ : Dimension)] ++ cexDimB :: []) =
      [(⟨"zz", 0.5, 0.5, 0, 0.5, 1.5, 0.5, 0⟩ : Dimension)] ++
        signalUpdate 3 0.9 cexDimB :: [] :=
  ⟨by decide, claim_C1_theorem 3 ⟨"b", 0.9⟩ _ _ cexDimB (by decide) (by decide)⟩

/-- C2, counterexample: store analytical `0.9`, then call the handler with
`analytical` omitted — the stored value becomes the hardcoded default
`0.7`, not the session's previous `0.9` (`analytical || 0.7`). -/
theorem claim_C2_counterexample :
    (mGet (handleCognitiveState (handleCognitiveState emptyState 0 "b" (some 0.9) none none none)
        1 "b" none none none none).brandSessions "b").map
      (fun s => s.cognitiveState.analytical) = some 0.7 ∧ (0.7 : ℚ) ≠ 0.9 := by
  exact ⟨by decide, by decide⟩

/-- C2, amended: in the WebSocket handler every omitted field is reset to a
hardcoded default — analytical `0.7`, intuitive `0.7`, efficiency `0.75`,
context `{}` — discarding the session's previously stored cognitive state;
the serverless route instead falls back to its freshly created session's
defaults (`0.5`, `0.5`, `0.7`) and also resets an omitted context to `{}`. -/
theorem claim_C2_theorem (st : ServerState) (now : Nat) (b : String) :
    ((mGet (handleCognitiveState st now b none none none none).brandSessions b).map
        (fun s => s.cognitiveState) =
      some { analytical := 0.7, intuitive := 0.7, efficiency := 0.75,
             lastUpdate := some now, context := some (jsOrCtx none) })
    ∧ routeCognitiveState now b none none none none =
      { analytical := 0.5, intuitive := 0.5, efficiency := 0.7,
        context := some (jsOrCtx none) } := by
  constructor
  · unfold handleCognitiveState
    rcases hm : mGet st.brandSessions b with _ | s
    · rw [getBrandStateOp_create st now b hm]
      simp [mGet_mSet_self, jsOrQ]
    · rw [getBrandStateOp_found st now b s hm]
      simp [mGet_mSet_self, jsOrQ]
  · rfl

/-- C3, counterexample: the serverless dialogue route stores the entry with
`messageType` exactly as submitted; with the field omitted the stored
`messageType` is absent, not the claimed default `"question"`. -/
theorem claim_C3_counterexample :
    (routeRefinementDialogue 0 0 "b" "alice" "hi" none).dialogue.map
        (fun e => e.messageType) = [none]
    ∧ (none : Option String) ≠ some "question" := by
  exact ⟨by decide, by decide⟩

/-- C3, amended: the serverless dialogue route appends exactly one entry —
with a fresh id and a timestamp — to the (freshly created) session's
dialogue list, keeping the prior entries and storing `messageType` exactly
as submitted; the WebSocket handler persists nothing to any session and
only broadcasts a dialogue message, applying the `"question"` default
there. -/
theorem claim_C3_theorem (n now : Nat) (b sp msg : String) (mt : Option String)
    (st : ServerState) :
    (routeRefinementDialogue n now b sp msg mt).dialogue =
        (createBrandSession2 now b).dialogue ++ [⟨n, sp, msg, mt, now⟩]
    ∧ handleRefinementDialogue st now b sp msg mt =
        (st, ⟨sp, msg, jsOrStr mt "question", now⟩) :=
  ⟨rfl, rfl⟩

/-- C4, counterexample: client 1 is subscribed to `"A"` with an open socket
whose `send` throws; broadcasting to `"A"` delivers only to client 2, and
client 1 — whose delivery failed — is still present in the registry
afterwards, contradicting the claimed removal on delivery failure. -/
theorem claim_C4_counterexample :
    (broadcastToBrand cexBroadcastSt "A").2 = [2]
    ∧ cGet (broadcastToBrand cexBroadcastSt "A").1.clients 1 = some cexClientFail := by
  exact ⟨by decide, by decide⟩

/-- C4, amended: deliveries are attempted independently — whether a client
receives the broadcast depends only on its own subscription, socket state
and send outcome, so one failing delivery never blocks the others — but
the broadcast path never mutates the registry: a failing connection is not
removed (removal happens only when the connection's close event fires). -/
theorem claim_C4_theorem (st : ServerState) (b : String)
    (hN : (st.clients.map Prod.fst).Nodup) :
    (broadcastToBrand st b).1 = st
    ∧ ∀ i c, (i, c) ∈ st.clients →
        (i ∈ (broadcastToBrand st b).2 ↔
          (c.brandId = some b ∧ c.readyOpen = true ∧ c.sendFails = false)) :=
  ⟨broadcastToBrand_state st b, fun i c hm => mem_broadcast_iff st b i c hN hm⟩

/-- C4, witness: the amended statement instantiated at the concrete
two-client registry with one failing client. -/
theorem claim_C4_witness :
    (cexBroadcastSt.clients.map Prod.fst).Nodup
    ∧ ((broadcastToBrand cexBroadcastSt "A").1 = cexBroadcastSt
      ∧ ∀ i c, (i, c) ∈ cexBroadcastSt.clients →
          (i ∈ (broadcastToBrand cexBroadcastSt "A").2 ↔
            (c.brandId = some "A" ∧ c.readyOpen = true ∧ c.sendFails = false))) :=
  ⟨by decide, claim_C4_theorem cexBroadcastSt "A" (by decide)⟩

/-- C5, counterexample: after replacing contradictions with `["x"]`, a
second call whose contradictions list is `[]` (a different list) leaves the
session's contradictions equal to the first batch, not to the second
list's entries — the guard `contradictions && contradictions.length > 0`
skips replacement for an empty batch. -/
theorem claim_C5_counterexample :
    (mGet (handleWorkshopData (handleWorkshopData emptyState 0 "b" [] ["x"] []) 1 "b"
        [] [] []).brandSessions "b").map (fun s => s.contradictions.map ConRec.payload) =
      some ["x"]
    ∧ (["x"] : List String) ≠ [] := by
  exact ⟨by decide, by decide⟩

/-- C5, amended: calling the workshop handler twice on the same session
with two *non-empty* contradiction lists (and two non-empty gap lists)
leaves the session's contradictions equal to exactly the second list's
entries, each stamped with a `detected` timestamp and a fresh id, with no
accumulation; the same replace-wholesale semantics hold for gaps with an
`identified` timestamp. -/
theorem claim_C5_theorem (st : ServerState) (now1 now2 : Nat) (b : String)
    (sig1 sig2 : List Signal) (l1 g1 l2 g2 : List String)
    (h2 : l2 ≠ []) (hg2 : g2 ≠ []) :
    ∃ s, mGet (handleWorkshopData (handleWorkshopData st now1 b sig1 l1 g1) now2 b
          sig2 l2 g2).brandSessions b = some s
      ∧ s.contradictions.map ConRec.payload = l2
      ∧ (∀ e ∈ s.contradictions, e.detected = now2)
      ∧ s.gaps.map GapRec.payload = g2
      ∧ (∀ e ∈ s.gaps, e.identified = now2)
      ∧ (s.contradictions.map ConRec.id ++ s.gaps.map GapRec.id).Nodup := by
  obtain ⟨s1, h1⟩ := handleWorkshopData_mGet st now1 b sig1 l1 g1
  have hce : l2.isEmpty = false := by
    cases l2 with
    | nil => exact absurd rfl h2
    | cons _ _ => rfl
  have hge : g2.isEmpty = false := by
    cases g2 with
    | nil => exact absurd rfl hg2
    | cons _ _ => rfl
  rw [handleWorkshopData_found _ now2 b sig2 l2 g2 s1 h1]
  refine ⟨_, mGet_mSet_self _ _ _, ?_, ?_, ?_, ?_, ?_⟩ <;>
    simp only [hce, hge, Bool.false_eq_true, if_false]
  · exact stampCons_map_payload now2 _ l2
  · exact stampCons_detected now2 _ l2
  · exact stampGaps_map_payload now2 _ g2
  · exact stampGaps_identified now2 _ g2
  · exact stamp_ids_append_nodup now2 _ l2 g2

/-- C5, witness: the amended statement instantiated with first batches
`["x"]`/`["w"]` and second batches `["y"]`/`["z"]`. -/
theorem claim_C5_witness :
    (["y"] : List String) ≠ []
    ∧ (["z"] : List String) ≠ []
    ∧ ∃ s, mGet (handleWorkshopData (handleWorkshopData emptyState 0 "b" [] ["x"] ["w"]) 1 "b"
          [] ["y"] ["z"]).brandSessions "b" = some s
        ∧ s.contradictions.map ConRec.payload = ["y"]
        ∧ (∀ e ∈ s.contradictions, e.detected = 1)
        ∧ s.gaps.map GapRec.payload = ["z"]
        ∧ (∀ e ∈ s.gaps, e.identified = 1)
        ∧ (s.contradictions.map ConRec.id ++ s.gaps.map GapRec.id).Nodup :=
  ⟨by decide, by decide,
    claim_C5_theorem emptyState 0 1 "b" [] [] ["x"] ["w"] ["y"] ["z"]
      (by decide) (by decide)⟩

/-- C6: if every stored session's attributes have `coherence ≤ 1`, then
after any sequence of workshop-processing calls (each applying its signals
with `coherence = min(coherence + 0.05, 1.0)` on the matched attribute)
every stored session's attributes still have `coherence ≤ 1` — no number
of applied signals can push coherence above `1.0`. -/
theorem claim_C6_theorem (st : ServerState) (h : StoreCoh st)
    (calls : List WorkshopCall) : StoreCoh (runCalls st calls) := by
  induction calls generalizing st with
  | nil => exact h
  | cons c rest ih =>
      exact ih _ (handleWorkshopData_storeCoh st c.now c.brandId c.signals
        c.contradictions c.gaps h)

/-- C6, witness: starting from the empty store (which trivially satisfies
the invariant) and processing one `market_position` signal, every stored
session's coherence values remain at most `1`. -/
theorem claim_C6_witness :
    StoreCoh emptyState
    ∧ StoreCoh (runCalls emptyState [⟨1, "demo", [⟨"market_position", 0.92⟩], [], []⟩]) :=
  have h0 : StoreCoh emptyState := by
    intro b s hs
    simp [emptyState, mGet] at hs
  ⟨h0, claim_C6_theorem emptyState h0 _⟩

/-- C7: for a session id not yet in the store, the first `getOrCreate`
stores the session it returns (with a non-empty default attribute set),
and a second `getOrCreate` with the same id returns that very session and
leaves the state unchanged — retrieval is idempotent. -/
theorem claim_C7_theorem (st : ServerState) (now now2 : Nat) (b : String)
    (h : mGet st.brandSessions b = none) :
    mGet (getBrandStateOp st now b).2.brandSessions b = some (getBrandStateOp st now b).1
    ∧ (getBrandStateOp st now b).1.dimensions ≠ []
    ∧ getBrandStateOp (getBrandStateOp st now b).2 now2 b =
        ((getBrandStateOp st now b).1, (getBrandStateOp st now b).2) := by
  rw [getBrandStateOp_create st now b h]
  have hself : mGet (mSet st.brandSessions b (createBrandSession now b)) b =
      some (createBrandSession now b) := mGet_mSet_self _ _ _
  exact ⟨hself, by simp [createBrandSession, generateInitialDimensions],
    getBrandStateOp_found _ now2 _ _ hself⟩

/-- C7, witness: the statement instantiated at the empty store and the
session id `"demo"`. -/
theorem claim_C7_witness :
    mGet emptyState.brandSessions "demo" = none
    ∧ (mGet (getBrandStateOp emptyState 0 "demo").2.brandSessions "demo" =
          some (getBrandStateOp emptyState 0 "demo").1
      ∧ (getBrandStateOp emptyState 0 "demo").1.dimensions ≠ []
      ∧ getBrandStateOp (getBrandStateOp emptyState 0 "demo").2 1 "demo" =
          ((getBrandStateOp emptyState 0 "demo").1, (getBrandStateOp emptyState 0 "demo").2)) :=
  ⟨by decide, claim_C7_theorem emptyState 0 1 "demo" (by decide)⟩

/-- C8: after a registered client with an open, working socket joins
`"brandA"`, broadcasting to `"brandA"` delivers to it, and broadcasting to
a different session id does not — broadcast reaches exactly the
connections subscribed to the published session. -/
theorem claim_C8_theorem (st : ServerState) (now : Nat) (c1 : Nat) (bA bB : String)
    (cl : Client) (hN : (st.clients.map Prod.fst).Nodup)
    (hc : cGet st.clients c1 = some cl) (hopen : cl.readyOpen = true)
    (hfail : cl.sendFails = false) (hne : bA ≠ bB) :
    c1 ∈ (broadcastToBrand (handleJoinBrand st now c1 bA) bA).2
    ∧ c1 ∉ (broadcastToBrand (handleJoinBrand st now c1 bA) bB).2 := by
  have hcl := handleJoinBrand_clients st now c1 bA cl hc
  have hN1 : ((handleJoinBrand st now c1 bA).clients.map Prod.fst).Nodup := by
    rw [hcl, cUpd_map_fst]
    exact hN
  have hget1 : cGet (handleJoinBrand st now c1 bA).clients c1 =
      some { cl with brandId := some bA } := by
    rw [hcl]
    exact cGet_cUpd_self _ _ _ _ hc
  have hmem1 : (c1, { cl with brandId := some bA }) ∈ (handleJoinBrand st now c1 bA).clients :=
    cGet_mem _ _ _ hget1
  constructor
  · exact (mem_broadcast_iff _ bA c1 _ hN1 hmem1).mpr ⟨rfl, hopen, hfail⟩
  · intro hmem
    have hprop := (mem_broadcast_iff _ bB c1 _ hN1 hmem1).mp hmem
    have hsome : some bA = some bB := hprop.1
    injection hsome with hAB
    exact hne hAB

/-- C8, witness: the statement instantiated at a one-client registry. -/
theorem claim_C8_witness :
    ((cexJoinSt.clients.map Prod.fst).Nodup
      ∧ cGet cexJoinSt.clients 7 = some cexFreshClient
      ∧ cexFreshClient.readyOpen = true
      ∧ cexFreshClient.sendFails = false
      ∧ "brandA" ≠ "brandB")
    ∧ (7 ∈ (broadcastToBrand (handleJoinBrand cexJoinSt 0 7 "brandA") "brandA").2
      ∧ 7 ∉ (broadcastToBrand (handleJoinBrand cexJoinSt 0 7 "brandA") "brandB").2) :=
  ⟨⟨by decide, by decide, by decide, by decide, by decide⟩,
    claim_C8_theorem cexJoinSt 0 7 "brandA" "brandB" cexFreshClient
      (by decide) (by decide) (by decide) (by decide) (by decide)⟩

/-- C9: a numeric cognitive-state field submitted as `0` takes the same
fallback branch as an omitted field (JS `0` is falsy in `x || d`): the
WebSocket handler stores the hardcoded fallbacks `0.7`/`0.7`/`0.75` and
the serverless route stores its session defaults `0.5`/`0.5`/`0.7` — never
the submitted `0`. -/
theorem claim_C9_theorem (st : ServerState) (now : Nat) (b : String) (ctx : Option Ctx) :
    handleCognitiveState st now b (some 0) (some 0) (some 0) ctx =
        handleCognitiveState st now b none none none ctx
    ∧ (mGet (handleCognitiveState st now b (some 0) (some 0) (some 0) ctx).brandSessions b).map
        (fun s => (s.cognitiveState.analytical, s.cognitiveState.intuitive,
          s.cognitiveState.efficiency)) = some (0.7, 0.7, 0.75)
    ∧ routeCognitiveState now b (some 0) (some 0) (some 0) ctx =
        routeCognitiveState now b none none none ctx
    ∧ (routeCognitiveState now b (some 0) (some 0) (some 0) ctx).analytical = 0.5
    ∧ (routeCognitiveState now b (some 0) (some 0) (some 0) ctx).intuitive = 0.5
    ∧ (routeCognitiveState now b (some 0) (some 0) (some 0) ctx).efficiency = 0.7 := by
  have hz : ∀ d : ℚ, jsOrQ (some 0) d = jsOrQ none d := by
    intro d
    rw [jsOrQ_zero, jsOrQ_none]
  refine ⟨?_, ?_, ?_, ?_, ?_, ?_⟩
  · simp only [handleCognitiveState, hz]
  · unfold handleCognitiveState
    rcases hm : mGet st.brandSessions b with _ | s
    · rw [getBrandStateOp_create st now b hm]
      simp [mGet_mSet_self, jsOrQ]
    · rw [getBrandStateOp_found st now b s hm]
      simp [mGet_mSet_self, jsOrQ]
  · simp only [routeCognitiveState, hz]
  · simp [routeCognitiveState, jsOrQ, createBrandSession2]
  · simp [routeCognitiveState, jsOrQ, createBrandSession2]
  · simp [routeCognitiveState, jsOrQ, createBrandSession2]

/-- C10: submitting empty contradiction and gap lists to the workshop
handler leaves an existing session's contradictions and gaps (and every
other field except the signal-updated dimensions) unchanged, consumes no
fresh ids, and does not touch the client registry — an empty batch never
clears previously stored entries. -/
theorem claim_C10_theorem (st : ServerState) (now : Nat) (b : String)
    (sig : List Signal) (s : Session) (h : mGet st.brandSessions b = some s) :
    mGet (handleWorkshopData st now b sig [] []).brandSessions b =
        some { s with dimensions := processSignals now sig s.dimensions }
    ∧ (handleWorkshopData st now b sig [] []).nextId = st.nextId
    ∧ (handleWorkshopData st now b sig [] []).clients = st.clients := by
  rw [handleWorkshopData_found st now b sig [] [] s h]
  refine ⟨?_, rfl, rfl⟩
  simpa using mGet_mSet_self st.brandSessions b _

/-- C10, witness: the statement instantiated at a store holding a session
with non-empty contradictions is not needed — the stored `cexSess` is used
with no signals, so nothing at all changes. -/
theorem claim_C10_witness :
    mGet cexSt.brandSessions "b" = some cexSess
    ∧ (mGet (handleWorkshopData cexSt 3 "b" [] [] []).brandSessions "b" =
          some { cexSess with dimensions := processSignals 3 [] cexSess.dimensions }
      ∧ (handleWorkshopData cexSt 3 "b" [] [] []).nextId = cexSt.nextId
      ∧ (handleWorkshopData cexSt 3 "b" [] [] []).clients = cexSt.clients) :=
  ⟨by decide, claim_C10_theorem cexSt 3 "b" [] cexSess (by decide)⟩

end Subfracture
